import Mathlib

/-!
Verification of the QuickFF `Program` orchestration class (`lib/program.py`).

The embedding models the four methods `generate_trajectories`,
`estimate_from_pt`, `refine_cost` and `plot_pt` of the `Program` class.
External collaborators are modelled abstractly:

* the IC catalog `system.ics` is a function from kind names to lists of IC
  instances;
* the perturbation generator `pert_theory.generate` is an abstract function
  from an IC (and an optional step count) to a trajectory token, together
  with an interruption schedule `intr : Nat -> Bool` saying whether the
  n-th generate call raises `KeyboardInterrupt`;
* the harmonic estimator `pert_theory.estimate` is an abstract fallible
  function from an IC and its trajectory to a pair (k, q0);
* the pickle file at `fns_traj` is a value `Option (Except Unit Store)`:
  `none` when the file does not exist, `some (.error ())` when it exists
  but cannot be deserialized, `some (.ok st)` when it deserializes to `st`.

Raised Python exceptions are modelled by the `PyErr` error type of an
`Except` result; the number of generate calls performed is threaded through
explicitly so that claims about "how often the ab initio model is invoked"
can be stated.
-/

set_option autoImplicit false

namespace QuickFF

/-- A Python exception escaping one of the `Program` methods. -/
inductive PyErr where
  /-- `ValueError`, raised by `max([])` on an empty sequence. -/
  | valueError
  /-- `cPickle.UnpicklingError` (or similar): the store file exists but
  cannot be deserialized. -/
  | unpicklingError
  /-- `KeyboardInterrupt`: user cancellation during a generate call. -/
  | keyboardInterrupt
  /-- `KeyError`: dictionary lookup `trajectories[ic.name]` failed. -/
  | keyError
  /-- `IndexError`: `ics[0]` on an empty instance list. -/
  | indexError
  /-- an error raised inside `pert_theory.estimate`. -/
  | estimateError
deriving DecidableEq

/-- An internal-coordinate instance as exposed by the catalog: its identity
(`name`) and the units of its force constant and of its natural value. -/
structure IC where
  name : String
  kunit : String
  qunit : String
deriving DecidableEq

/-- A trajectory value; its internal structure is irrelevant to the
orchestration layer, so it is an opaque token. -/
abbrev Traj := Nat

/-- An abstract numerical value (a force constant or equilibrium value). -/
abbrev Val := Int

/-- The trajectory dictionary `trajectories`, mapping IC-instance names to
trajectories (a Python dict observed through lookup). -/
abbrev Store := List (String × Traj)

/-- Dictionary lookup `d[n]` / `n in d.keys()`. -/
def findTraj : Store → String → Option Traj
  | [], _ => none
  | (m, u) :: rest, n => if m = n then some u else findTraj rest n

/-- Dictionary assignment `d[n] = t`. -/
def insertTraj : Store → String → Traj → Store
  | [], n, t => [(n, t)]
  | (m, u) :: rest, n, t =>
      if m = n then (m, t) :: rest else (m, u) :: insertTraj rest n t

/-- Python 2 string comparison (lexicographic on characters), used by
`sorted`. -/
def strLe (a b : String) : Bool :=
  go a.data b.data
where
  go : List Char → List Char → Bool
  | [], _ => true
  | _ :: _, [] => false
  | c :: cs, d :: ds => if c = d then go cs ds else decide (c < d)

/-- Insert a string into a sorted list of strings. -/
def insertSorted (s : String) : List String → List String
  | [] => [s]
  | t :: rest => if strLe s t then s :: t :: rest else t :: insertSorted s rest

/-- Python's `sorted` on a list of strings (insertion sort). -/
def sortStrings : List String → List String
  | [] => []
  | s :: rest => insertSorted s (sortStrings rest)

/-- Python's `s.startswith(p)`. -/
def startswith (s p : String) : Bool :=
  p.data.isPrefixOf s.data

/-- `maxlength = max([len(icname) for icname in terms.keys()]) + 2`:
raises `ValueError` when the potential-term set is empty. -/
def maxlength : List String → Except PyErr Nat
  | [] => .error .valueError
  | s :: rest => .ok (rest.foldl (fun m t => max m t.length) s.length + 2)

/-- `skip_dihedrals and icname.startswith('dihed')`. -/
def skippedKind (skip : Bool) (k : String) : Bool :=
  skip && startswith k "dihed"

/-- The abstract environment a `Program` instance runs in: the model's
potential-term set (`model.val.pot.terms.keys()`), the IC catalog
(`system.ics`), the perturbation generator and harmonic estimator
(`pert_theory.generate` / `pert_theory.estimate`), and the interruption
schedule (`intr c = true` means the `c`-th generate call, counting all
calls of the run, raises `KeyboardInterrupt`). -/
structure Env where
  terms : List String
  ics : String → List IC
  gen : IC → Option Nat → Traj
  est : IC → Traj → Except Unit (Val × Val)
  intr : Nat → Bool

/-- The inner loop of `generate_trajectories` over the instances of one
kind: `for i_ics, ic in enumerate(ics): trajectories[ic.name] =
self.pert_theory.generate(ic)`.  Returns the outcome together with the
number of generate calls attempted so far. -/
def genICs (gen : IC → Option Nat → Traj) (intr : Nat → Bool) :
    List IC → Store → Nat → Except PyErr Store × Nat
  | [], st, c => (.ok st, c)
  | ic :: rest, st, c =>
      if intr c then (.error .keyboardInterrupt, c + 1)
      else genICs gen intr rest (insertTraj st ic.name (gen ic none)) (c + 1)

/-- The outer loop of `generate_trajectories` over
`sorted(self.model.val.pot.terms.keys())`, with the dihedral skip. -/
def genKinds (env : Env) (skip : Bool) :
    List String → Store → Nat → Except PyErr Store × Nat
  | [], st, c => (.ok st, c)
  | k :: rest, st, c =>
      if skippedKind skip k then genKinds env skip rest st c
      else
        match genICs env.gen env.intr (env.ics k) st c with
        | (.ok st', c') => genKinds env skip rest st' c'
        | (.error e, c') => (.error e, c')

/-- `Program.generate_trajectories`.  `fns` models `fns_traj is not None`;
`disk` is the state of the file at `fns_traj`; `c0` the generate-call
counter at entry.  Returns (outcome, file state on exit, counter on
exit). -/
def generate_trajectories (env : Env) (fns : Bool)
    (disk : Option (Except Unit Store)) (skip : Bool) (c0 : Nat) :
    Except PyErr Store × Option (Except Unit Store) × Nat :=
  match maxlength env.terms with
  | .error e => (.error e, disk, c0)
  | .ok _ =>
    match fns, disk with
    | true, some (.error _) => (.error .unpicklingError, disk, c0)
    | true, some (.ok st) => (.ok st, disk, c0)
    | _, _ =>
      match genKinds env skip (sortStrings env.terms) [] c0 with
      | (.ok st, c') => (.ok st, if fns then some (.ok st) else disk, c')
      | (.error e, c') => (.error e, disk, c')

/-- The loop of `plot_pt` over `self.system.ics[icname]`: an instance whose
name is already a key is skipped; otherwise `generate(ic, steps=51)` is
attempted, and a `KeyboardInterrupt` during it is caught and the loop
continues with the next instance. -/
def plotLoop (gen : IC → Option Nat → Traj) (intr : Nat → Bool) :
    List IC → Store → Nat → Store × Nat
  | [], st, c => (st, c)
  | ic :: rest, st, c =>
      if (findTraj st ic.name).isSome then plotLoop gen intr rest st c
      else if intr c then plotLoop gen intr rest st (c + 1)
      else plotLoop gen intr rest (insertTraj st ic.name (gen ic (some 51))) (c + 1)

/-- `Program.plot_pt` (the trajectory reading/generation/persisting part;
plotting and logging are external).  The first component is the trajectory
dictionary held at the end (the plotting input), or the exception raised
while loading the store. -/
def plot_pt (env : Env) (fns : Bool) (disk : Option (Except Unit Store))
    (icname : String) (c0 : Nat) :
    Except PyErr Store × Option (Except Unit Store) × Nat :=
  match fns, disk with
  | true, some (.error _) => (.error .unpicklingError, disk, c0)
  | true, some (.ok st0) =>
      let r := plotLoop env.gen env.intr (env.ics icname) st0 c0
      (.ok r.1, some (.ok r.1), r.2)
  | true, none =>
      let r := plotLoop env.gen env.intr (env.ics icname) [] c0
      (.ok r.1, some (.ok r.1), r.2)
  | false, _ =>
      let r := plotLoop env.gen env.intr (env.ics icname) [] c0
      (.ok r.1, disk, r.2)

/-- Modelled from the spec: a `DataArray` of the external `quickff.fftable`
module is a unit-tagged array of values, filled by `append`. -/
structure DataArray where
  unit : String
  data : List Val
deriving DecidableEq

/-- Modelled from the spec: the Force-Field Table accumulates, per IC
kind-name, two parallel unit-tagged arrays (force constants, equilibrium
values) in insertion order. -/
structure FFTable where
  entries : List (String × DataArray × DataArray)
deriving DecidableEq

/-- Modelled from the spec: `FFTable.add(name, ks, q0s)` appends a new kind
entry in insertion order. -/
def FFTable.add (ff : FFTable) (k : String) (ks q0s : DataArray) : FFTable :=
  ⟨ff.entries ++ [(k, ks, q0s)]⟩

/-- The inner loop of `estimate_from_pt` over the instances of one kind:
`k, q0 = self.pert_theory.estimate(ic, trajectories[ic.name])` followed by
the two appends; a missing key raises `KeyError`, a failing estimate
propagates. -/
def estICs (est : IC → Traj → Except Unit (Val × Val)) (tr : Store) :
    List IC → Except PyErr (List (Val × Val))
  | [] => .ok []
  | ic :: rest =>
    match findTraj tr ic.name with
    | none => .error .keyError
    | some t =>
      match est ic t with
      | .error _ => .error .estimateError
      | .ok kq =>
        match estICs est tr rest with
        | .error e => .error e
        | .ok kqs => .ok (kq :: kqs)

/-- Processing of one non-skipped kind in `estimate_from_pt`: reading the
unit tags from `ics[0]` (an `IndexError` when the instance list is empty)
and building the two parallel arrays. -/
def kindEntry (env : Env) (tr : Store) (k : String) :
    Except PyErr (DataArray × DataArray) :=
  match env.ics k with
  | [] => .error .indexError
  | ic0 :: rest =>
    match estICs env.est tr (ic0 :: rest) with
    | .error e => .error e
    | .ok kqs => .ok (⟨ic0.kunit, kqs.map Prod.fst⟩, ⟨ic0.qunit, kqs.map Prod.snd⟩)

/-- The outer loop of `estimate_from_pt` over the sorted kind names, with
the dihedral skip, accumulating `ff.add(icname, ks, q0s)`. -/
def estKinds (env : Env) (tr : Store) (skip : Bool) :
    List String → FFTable → Except PyErr FFTable
  | [], ff => .ok ff
  | k :: rest, ff =>
      if skippedKind skip k then estKinds env tr skip rest ff
      else
        match kindEntry env tr k with
        | .error e => .error e
        | .ok ksq => estKinds env tr skip rest (ff.add k ksq.1 ksq.2)

/-- `Program.estimate_from_pt`. -/
def estimate_from_pt (env : Env) (tr : Store) (skip : Bool) :
    Except PyErr FFTable :=
  match maxlength env.terms with
  | .error e => .error e
  | .ok _ => estKinds env tr skip (sortStrings env.terms) ⟨[]⟩

/-- The table passed to `self.model.val.update_fftable(ff)` by
`estimate_from_pt`: the update happens exactly when the method returns
normally, with the returned table. -/
def est_update (env : Env) (tr : Store) (skip : Bool) : Option FFTable :=
  match estimate_from_pt env tr skip with
  | .ok ff => some ff
  | .error _ => none

/-- Modelled from the spec: the state of `model.val` visible to the core is
its current Force-Field Table (set by `update_fftable` in stage 1). -/
structure ValState where
  fftab : FFTable
deriving DecidableEq

/-- Modelled from the spec: `model.val.update_fcs(fcs)` performs a bulk
force-constant update — for each kind entry every force constant is
replaced by the refined constant for that kind; equilibrium values are not
touched. -/
def update_fcs (v : ValState) (fcs : String → Val) : ValState :=
  ⟨⟨v.fftab.entries.map (fun t =>
      (t.1, ⟨t.2.1.unit, t.2.1.data.map (fun _ => fcs t.1)⟩, t.2.2))⟩⟩

/-- Modelled from the spec: `model.val.get_fftable()` reads the Model's
current Force-Field Table back out. -/
def get_fftable (v : ValState) : FFTable :=
  v.fftab

/-- `Program.refine_cost`: `fcs = self.cost.estimate()` (the refined force
constants, one per processed kind — an abstract input here, the refiner
itself lives in `quickff.cost`), then `update_fcs` and `get_fftable`.
Returns the printed/returned table and the Model state on exit. -/
def refine_cost (fcs : String → Val) (v : ValState) : FFTable × ValState :=
  let v' := update_fcs v fcs
  (get_fftable v', v')

/-! ### Basic lemmas about the dictionary and the sort -/

theorem findTraj_insertTraj (st : Store) (n : String) (t : Traj) (q : String) :
    findTraj (insertTraj st n t) q = if q = n then some t else findTraj st q := by
  induction st with
  | nil =>
      simp only [insertTraj, findTraj]
      by_cases h : q = n
      · rw [if_pos (h ▸ rfl : n = q), if_pos h]
      · rw [if_neg (fun hh => h hh.symm), if_neg h]
  | cons p rest ih =>
      obtain ⟨m, u⟩ := p
      simp only [insertTraj]
      by_cases hmn : m = n
      · rw [if_pos hmn]
        simp only [findTraj]
        by_cases hmq : m = q
        · rw [if_pos hmq, if_pos (hmq.symm.trans hmn)]
        · rw [if_neg hmq, if_neg (fun hh => hmq (hmn.trans hh.symm)), if_neg hmq]
      · rw [if_neg hmn]
        simp only [findTraj]
        by_cases hmq : m = q
        · rw [if_pos hmq, if_neg (fun hh => hmn (hmq.trans hh)), if_pos hmq]
        · rw [if_neg hmq, ih]
          by_cases hq : q = n
          · rw [if_pos hq, if_pos hq]
          · rw [if_neg hq, if_neg hq, if_neg hmq]

theorem mem_insertSorted (s a : String) :
    ∀ l : List String, a ∈ insertSorted s l ↔ a = s ∨ a ∈ l := by
  intro l
  induction l with
  | nil => simp [insertSorted]
  | cons t rest ih =>
      simp only [insertSorted]
      by_cases h : strLe s t = true
      · rw [if_pos h]
        simp only [List.mem_cons]
      · rw [if_neg h]
        simp only [List.mem_cons, ih]
        tauto

theorem mem_sortStrings (a : String) :
    ∀ l : List String, a ∈ sortStrings l ↔ a ∈ l := by
  intro l
  induction l with
  | nil => simp [sortStrings]
  | cons s rest ih => simp [sortStrings, mem_insertSorted, ih]

theorem maxlength_ok {l : List String} (h : l ≠ []) :
    ∃ m, maxlength l = .ok m := by
  cases l with
  | nil => exact absurd rfl h
  | cons s rest => exact ⟨_, rfl⟩

/-! ### Lemmas about the generation loops of `generate_trajectories` -/

theorem genICs_ok_mono (g : IC → Option Nat → Traj) (i : Nat → Bool) :
    ∀ (l : List IC) (st : Store) (c : Nat) (st' : Store) (c' : Nat) (n : String),
      genICs g i l st c = (.ok st', c') →
      (findTraj st n).isSome = true → (findTraj st' n).isSome = true := by
  intro l
  induction l with
  | nil =>
      intro st c st' c' n h hs
      simp only [genICs, Prod.mk.injEq] at h
      obtain ⟨h1, h2⟩ := h
      cases h1
      exact hs
  | cons ic rest ih =>
      intro st c st' c' n h hs
      by_cases hic : i c = true
      · simp [genICs, hic] at h
      · simp only [genICs, hic, if_false, Bool.false_eq_true] at h
        refine ih _ _ _ _ n h ?_
        rw [findTraj_insertTraj]
        by_cases hq : n = ic.name <;> simp [hq, hs]

theorem genICs_ok_subset (g : IC → Option Nat → Traj) (i : Nat → Bool) :
    ∀ (l : List IC) (st : Store) (c : Nat) (st' : Store) (c' : Nat) (n : String),
      genICs g i l st c = (.ok st', c') →
      (findTraj st' n).isSome = true →
      (findTraj st n).isSome = true ∨ ∃ ic, ic ∈ l ∧ ic.name = n := by
  intro l
  induction l with
  | nil =>
      intro st c st' c' n h hs
      simp only [genICs, Prod.mk.injEq] at h
      obtain ⟨h1, h2⟩ := h
      cases h1
      exact Or.inl hs
  | cons ic rest ih =>
      intro st c st' c' n h hs
      by_cases hic : i c = true
      · simp [genICs, hic] at h
      · simp only [genICs, hic, if_false, Bool.false_eq_true] at h
        rcases ih _ _ _ _ n h hs with h2 | ⟨ic', hmem, hname⟩
        · rw [findTraj_insertTraj] at h2
          by_cases hq : n = ic.name
          · exact Or.inr ⟨ic, List.mem_cons_self ic rest, hq.symm⟩
          · rw [if_neg hq] at h2
            exact Or.inl h2
        · exact Or.inr ⟨ic', List.mem_cons_of_mem ic hmem, hname⟩

theorem genICs_ok_complete (g : IC → Option Nat → Traj) (i : Nat → Bool) :
    ∀ (l : List IC) (st : Store) (c : Nat) (st' : Store) (c' : Nat),
      genICs g i l st c = (.ok st', c') →
      ∀ ic, ic ∈ l → (findTraj st' ic.name).isSome = true := by
  intro l
  induction l with
  | nil => intro st c st' c' h ic hmem; cases hmem
  | cons ic0 rest ih =>
      intro st c st' c' h ic hmem
      by_cases hic : i c = true
      · simp [genICs, hic] at h
      · simp only [genICs, hic, if_false, Bool.false_eq_true] at h
        rcases List.mem_cons.mp hmem with heq | hmem'
        · subst heq
          refine genICs_ok_mono g i rest _ _ _ _ _ h ?_
          rw [findTraj_insertTraj, if_pos rfl]
          rfl
        · exact ih _ _ _ _ h ic hmem'

theorem genKinds_ok_mono (env : Env) (skip : Bool) :
    ∀ (l : List String) (st : Store) (c : Nat) (st' : Store) (c' : Nat) (n : String),
      genKinds env skip l st c = (.ok st', c') →
      (findTraj st n).isSome = true → (findTraj st' n).isSome = true := by
  intro l
  induction l with
  | nil =>
      intro st c st' c' n h hs
      simp only [genKinds, Prod.mk.injEq] at h
      obtain ⟨h1, h2⟩ := h
      cases h1
      exact hs
  | cons k rest ih =>
      intro st c st' c' n h hs
      by_cases hk : skippedKind skip k = true
      · simp only [genKinds, hk, if_true] at h
        exact ih _ _ _ _ n h hs
      · simp only [genKinds, hk, if_false, Bool.false_eq_true] at h
        rcases hg : genICs env.gen env.intr (env.ics k) st c with ⟨r, c2⟩
        rw [hg] at h
        cases r with
        | error e => simp at h
        | ok st2 =>
            exact ih _ _ _ _ n h (genICs_ok_mono env.gen env.intr _ _ _ _ _ n hg hs)

theorem genKinds_ok_subset (env : Env) (skip : Bool) :
    ∀ (l : List String) (st : Store) (c : Nat) (st' : Store) (c' : Nat) (n : String),
      genKinds env skip l st c = (.ok st', c') →
      (findTraj st' n).isSome = true →
      (findTraj st n).isSome = true ∨
        ∃ k, k ∈ l ∧ skippedKind skip k = false ∧ ∃ ic, ic ∈ env.ics k ∧ ic.name = n := by
  intro l
  induction l with
  | nil =>
      intro st c st' c' n h hs
      simp only [genKinds, Prod.mk.injEq] at h
      obtain ⟨h1, h2⟩ := h
      cases h1
      exact Or.inl hs
  | cons k rest ih =>
      intro st c st' c' n h hs
      by_cases hk : skippedKind skip k = true
      · rcases ih _ _ _ _ n (by simpa only [genKinds, hk, if_true] using h) hs with
          h2 | ⟨k', hm, hns, hic⟩
        · exact Or.inl h2
        · exact Or.inr ⟨k', List.mem_cons_of_mem k hm, hns, hic⟩
      · simp only [genKinds, hk, if_false, Bool.false_eq_true] at h
        rcases hg : genICs env.gen env.intr (env.ics k) st c with ⟨r, c2⟩
        rw [hg] at h
        cases r with
        | error e => simp at h
        | ok st2 =>
            rcases ih _ _ _ _ n h hs with h2 | ⟨k', hm, hns, hic⟩
            · rcases genICs_ok_subset env.gen env.intr _ _ _ _ _ n hg h2 with h3 | ⟨ic, hmem, hname⟩
              · exact Or.inl h3
              · exact Or.inr ⟨k, List.mem_cons_self k rest,
                  Bool.not_eq_true _ ▸ hk, ic, hmem, hname⟩
            · exact Or.inr ⟨k', List.mem_cons_of_mem k hm, hns, hic⟩

theorem genKinds_ok_complete (env : Env) (skip : Bool) :
    ∀ (l : List String) (st : Store) (c : Nat) (st' : Store) (c' : Nat),
      genKinds env skip l st c = (.ok st', c') →
      ∀ k, k ∈ l → skippedKind skip k = false →
      ∀ ic, ic ∈ env.ics k → (findTraj st' ic.name).isSome = true := by
  intro l
  induction l with
  | nil => intro st c st' c' h k hmem; cases hmem
  | cons k0 rest ih =>
      intro st c st' c' h k hmem hns ic hic
      by_cases hk : skippedKind skip k0 = true
      · rcases List.mem_cons.mp hmem with heq | hmem'
        · subst heq; rw [hns] at hk; cases hk
        · exact ih _ _ _ _ (by simpa only [genKinds, hk, if_true] using h) k hmem' hns ic hic
      · simp only [genKinds, hk, if_false, Bool.false_eq_true] at h
        rcases hg : genICs env.gen env.intr (env.ics k0) st c with ⟨r, c2⟩
        rw [hg] at h
        cases r with
        | error e => simp at h
        | ok st2 =>
            rcases List.mem_cons.mp hmem with heq | hmem'
            · subst heq
              exact genKinds_ok_mono env skip _ _ _ _ _ _ h
                (genICs_ok_complete env.gen env.intr _ _ _ _ _ hg ic hic)
            · exact ih _ _ _ _ h k hmem' hns ic hic

/-- Whenever `generate_trajectories` raises (for any reason), the file at
`fns_traj` is left exactly as it was: the write happens only on a normal
return of the generate-from-scratch path. -/
theorem gen_traj_error_disk (env : Env) (fns : Bool)
    (disk : Option (Except Unit Store)) (skip : Bool) (c0 : Nat) (e : PyErr)
    (h : (generate_trajectories env fns disk skip c0).1 = .error e) :
    (generate_trajectories env fns disk skip c0).2.1 = disk := by
  cases hm : maxlength env.terms with
  | error e2 => simp [generate_trajectories, hm]
  | ok m =>
      cases fns with
      | true =>
          match disk with
          | some (.error u) => simp [generate_trajectories, hm]
          | some (.ok st) => simp [generate_trajectories, hm] at h
          | none =>
              rcases hg : genKinds env skip (sortStrings env.terms) [] c0 with ⟨r, c'⟩
              cases r with
              | ok st => simp [generate_trajectories, hm, hg] at h
              | error e2 => simp [generate_trajectories, hm, hg]
      | false =>
          rcases hg : genKinds env skip (sortStrings env.terms) [] c0 with ⟨r, c'⟩
          cases r with
          | ok st => simp [generate_trajectories, hm, hg] at h
          | error e2 => simp [generate_trajectories, hm, hg]

/-! ### Lemmas about the per-IC loop of `plot_pt` -/

/-- Running the `plot_pt` loop over instances none of whose names are in
the dictionary yet: every instance is attempted in order, the `i`-th
attempt carries call index `c + i`, an interrupted attempt leaves no entry,
and unrelated keys are untouched. -/
theorem plotLoop_fresh (g : IC → Option Nat → Traj) (intr : Nat → Bool) :
    ∀ (l : List IC) (st : Store) (c : Nat),
      (∀ ic, ic ∈ l → findTraj st ic.name = none) →
      (l.map IC.name).Nodup →
      (∀ n, (∀ ic, ic ∈ l → ic.name ≠ n) →
        findTraj (plotLoop g intr l st c).1 n = findTraj st n) ∧
      (∀ (i : Nat) (h : i < l.length),
        findTraj (plotLoop g intr l st c).1 (l.get ⟨i, h⟩).name =
          if intr (c + i) = true then none
          else some (g (l.get ⟨i, h⟩) (some 51))) := by
  intro l
  induction l with
  | nil =>
      intro st c _ _
      exact ⟨fun n _ => rfl, fun i h => absurd h (Nat.not_lt_zero i)⟩
  | cons ic rest ih =>
      intro st c hfresh hnd
      have hic : findTraj st ic.name = none := hfresh ic (List.mem_cons_self ic rest)
      have hnotin : ∀ ic2, ic2 ∈ rest → ic2.name ≠ ic.name := by
        intro ic2 hm heq
        exact (List.nodup_cons.mp hnd).1 (heq ▸ List.mem_map_of_mem IC.name hm)
      have hnd' : (rest.map IC.name).Nodup := (List.nodup_cons.mp hnd).2
      have hstep : plotLoop g intr (ic :: rest) st c =
          if intr c = true then plotLoop g intr rest st (c + 1)
          else plotLoop g intr rest (insertTraj st ic.name (g ic (some 51))) (c + 1) := by
        simp only [plotLoop, hic, Option.isSome_none, Bool.false_eq_true, if_false]
      by_cases hi : intr c = true
      · rw [hstep, if_pos hi]
        obtain ⟨P1, P2⟩ := ih st (c + 1)
          (fun ic2 hm => hfresh ic2 (List.mem_cons_of_mem ic hm)) hnd'
        refine ⟨fun n hn => P1 n (fun ic2 hm => hn ic2 (List.mem_cons_of_mem ic hm)), ?_⟩
        intro i h
        cases i with
        | zero =>
            show findTraj (plotLoop g intr rest st (c + 1)).1 ic.name =
              if intr c = true then none else some (g ic (some 51))
            rw [if_pos hi]
            exact (P1 ic.name hnotin).trans hic
        | succ j =>
            have hj : j < rest.length := Nat.lt_of_succ_lt_succ (by simpa using h)
            have h2 := P2 j hj
            have hcj : c + 1 + j = c + (j + 1) := by omega
            rw [hcj] at h2
            exact h2
      · rw [hstep, if_neg hi]
        obtain ⟨P1, P2⟩ := ih (insertTraj st ic.name (g ic (some 51))) (c + 1)
          (fun ic2 hm => by
            rw [findTraj_insertTraj, if_neg (hnotin ic2 hm)]
            exact hfresh ic2 (List.mem_cons_of_mem ic hm)) hnd'
        constructor
        · intro n hn
          rw [P1 n (fun ic2 hm => hn ic2 (List.mem_cons_of_mem ic hm)),
            findTraj_insertTraj,
            if_neg (fun hh => hn ic (List.mem_cons_self ic rest) hh.symm)]
        · intro i h
          cases i with
          | zero =>
              show findTraj
                  (plotLoop g intr rest (insertTraj st ic.name (g ic (some 51))) (c + 1)).1
                  ic.name =
                if intr c = true then none else some (g ic (some 51))
              rw [if_neg hi]
              rw [P1 ic.name hnotin, findTraj_insertTraj, if_pos rfl]
          | succ j =>
              have hj : j < rest.length := Nat.lt_of_succ_lt_succ (by simpa using h)
              have h2 := P2 j hj
              have hcj : c + 1 + j = c + (j + 1) := by omega
              rw [hcj] at h2
              exact h2

/-- Running the `plot_pt` loop with no interruption: instances whose names
are already keys are kept untouched, missing ones are generated (with
`steps=51`), exactly the missing ones are attempted, and unrelated keys are
untouched. -/
theorem plotLoop_merge (g : IC → Option Nat → Traj) (intr : Nat → Bool)
    (hni : ∀ c, intr c = false) :
    ∀ (l : List IC) (st : Store) (c : Nat),
      (l.map IC.name).Nodup →
      ((plotLoop g intr l st c).2 =
        c + (l.filter (fun ic => (findTraj st ic.name).isNone)).length) ∧
      (∀ n, (∀ ic, ic ∈ l → ic.name ≠ n) →
        findTraj (plotLoop g intr l st c).1 n = findTraj st n) ∧
      (∀ ic, ic ∈ l →
        findTraj (plotLoop g intr l st c).1 ic.name =
          some ((findTraj st ic.name).getD (g ic (some 51)))) := by
  intro l
  induction l with
  | nil =>
      intro st c _
      exact ⟨rfl, fun n _ => rfl, fun ic hm => absurd hm (List.not_mem_nil ic)⟩
  | cons ic rest ih =>
      intro st c hnd
      have hnotin : ∀ ic2, ic2 ∈ rest → ic2.name ≠ ic.name := by
        intro ic2 hm heq
        exact (List.nodup_cons.mp hnd).1 (heq ▸ List.mem_map_of_mem IC.name hm)
      have hnd' : (rest.map IC.name).Nodup := (List.nodup_cons.mp hnd).2
      cases hic : findTraj st ic.name with
      | some t =>
          have hstep : plotLoop g intr (ic :: rest) st c = plotLoop g intr rest st c := by
            simp only [plotLoop, hic, Option.isSome_some, if_true]
          obtain ⟨P0, P1, P2⟩ := ih st c hnd'
          refine ⟨?_, ?_, ?_⟩
          · rw [hstep, P0]
            simp [List.filter_cons, hic]
          · intro n hn
            rw [hstep]
            exact P1 n (fun ic2 hm => hn ic2 (List.mem_cons_of_mem ic hm))
          · intro ic2 hm
            rcases List.mem_cons.mp hm with heq | hm'
            · subst heq
              rw [hstep, P1 ic2.name (fun ic3 hm3 => hnotin ic3 hm3), hic]
              rfl
            · rw [hstep]
              exact P2 ic2 hm'
      | none =>
          have hstep : plotLoop g intr (ic :: rest) st c =
              plotLoop g intr rest (insertTraj st ic.name (g ic (some 51))) (c + 1) := by
            simp only [plotLoop, hic, Option.isSome_none, Bool.false_eq_true, if_false,
              hni c]
          have hins : ∀ ic2, ic2 ∈ rest →
              findTraj (insertTraj st ic.name (g ic (some 51))) ic2.name =
                findTraj st ic2.name := by
            intro ic2 hm
            rw [findTraj_insertTraj, if_neg (hnotin ic2 hm)]
          obtain ⟨P0, P1, P2⟩ :=
            ih (insertTraj st ic.name (g ic (some 51))) (c + 1) hnd'
          refine ⟨?_, ?_, ?_⟩
          · rw [hstep, P0,
              List.filter_congr (fun ic2 hm => by rw [hins ic2 hm])]
            simp [List.filter_cons, hic]
            omega
          · intro n hn
            rw [hstep, P1 n (fun ic2 hm => hn ic2 (List.mem_cons_of_mem ic hm)),
              findTraj_insertTraj,
              if_neg (fun hh => hn ic (List.mem_cons_self ic rest) hh.symm)]
          · intro ic2 hm
            rcases List.mem_cons.mp hm with heq | hm'
            · subst heq
              rw [hstep, P1 ic2.name (fun ic3 hm3 => hnotin ic3 hm3),
                findTraj_insertTraj, if_pos rfl, hic]
              rfl
            · rw [hstep, P2 ic2 hm', hins ic2 hm']

/-! ### Lemmas about the estimation loops of `estimate_from_pt` -/

theorem estICs_ok_length (est : IC → Traj → Except Unit (Val × Val)) (tr : Store) :
    ∀ (l : List IC) (kqs : List (Val × Val)),
      estICs est tr l = .ok kqs → kqs.length = l.length := by
  intro l
  induction l with
  | nil =>
      intro kqs h
      rw [estICs] at h
      injection h with h2
      rw [← h2]
      rfl
  | cons ic rest ih =>
      intro kqs h
      rw [estICs] at h
      split at h
      · exact Except.noConfusion h
      · split at h
        · exact Except.noConfusion h
        · split at h
          · exact Except.noConfusion h
          · rename_i kqs' heq3
            injection h with h2
            rw [← h2]
            simp [ih kqs' heq3]

theorem estICs_ok_get (est : IC → Traj → Except Unit (Val × Val)) (tr : Store) :
    ∀ (l : List IC) (kqs : List (Val × Val)),
      estICs est tr l = .ok kqs →
      ∀ (i : Nat) (hi : i < kqs.length) (hl : i < l.length),
        ∃ t, findTraj tr (l.get ⟨i, hl⟩).name = some t ∧
          est (l.get ⟨i, hl⟩) t = .ok (kqs.get ⟨i, hi⟩) := by
  intro l
  induction l with
  | nil => intro kqs h i hi hl; exact absurd hl (Nat.not_lt_zero i)
  | cons ic rest ih =>
      intro kqs h i hi hl
      rw [estICs] at h
      split at h
      · exact Except.noConfusion h
      · rename_i t heq
        split at h
        · exact Except.noConfusion h
        · rename_i kq heq2
          split at h
          · exact Except.noConfusion h
          · rename_i kqs' heq3
            injection h with h2
            subst h2
            cases i with
            | zero => exact ⟨t, heq, heq2⟩
            | succ j =>
                exact ih kqs' heq3 j (Nat.lt_of_succ_lt_succ hi)
                  (Nat.lt_of_succ_lt_succ hl)

theorem kindEntry_ok (env : Env) (tr : Store) (k : String) (ks q0s : DataArray)
    (h : kindEntry env tr k = .ok (ks, q0s)) :
    ∃ kqs, estICs env.est tr (env.ics k) = .ok kqs ∧
      ks.data = kqs.map Prod.fst ∧ q0s.data = kqs.map Prod.snd ∧
      kqs.length = (env.ics k).length := by
  rw [kindEntry] at h
  split at h
  · exact Except.noConfusion h
  · rename_i ic0 rest heq
    split at h
    · exact Except.noConfusion h
    · rename_i kqs heq2
      injection h with h2
      cases h2
      refine ⟨kqs, ?_, rfl, rfl, ?_⟩
      · rw [heq]; exact heq2
      · rw [heq]; exact estICs_ok_length env.est tr (ic0 :: rest) kqs heq2

theorem estKinds_mono (env : Env) (tr : Store) (skip : Bool) :
    ∀ (l : List String) (ff ff' : FFTable) (t : String × DataArray × DataArray),
      estKinds env tr skip l ff = .ok ff' → t ∈ ff.entries → t ∈ ff'.entries := by
  intro l
  induction l with
  | nil =>
      intro ff ff' t h hm
      rw [estKinds] at h
      injection h with h2
      rw [← h2]
      exact hm
  | cons k rest ih =>
      intro ff ff' t h hm
      rw [estKinds] at h
      by_cases hk : skippedKind skip k = true
      · rw [if_pos hk] at h
        exact ih _ _ t h hm
      · rw [if_neg hk] at h
        split at h
        · exact Except.noConfusion h
        · exact ih _ _ t h (List.mem_append_left _ hm)

theorem estKinds_ok_src (env : Env) (tr : Store) (skip : Bool) :
    ∀ (l : List String) (ff ff' : FFTable) (k : String) (ks q0s : DataArray),
      estKinds env tr skip l ff = .ok ff' → (k, ks, q0s) ∈ ff'.entries →
      (k, ks, q0s) ∈ ff.entries ∨
        (k ∈ l ∧ skippedKind skip k = false ∧ kindEntry env tr k = .ok (ks, q0s)) := by
  intro l
  induction l with
  | nil =>
      intro ff ff' k ks q0s h hm
      rw [estKinds] at h
      injection h with h2
      rw [← h2] at hm
      exact Or.inl hm
  | cons k0 rest ih =>
      intro ff ff' k ks q0s h hm
      rw [estKinds] at h
      by_cases hk : skippedKind skip k0 = true
      · rw [if_pos hk] at h
        rcases ih _ _ k ks q0s h hm with h1 | ⟨hmem, hns, hke⟩
        · exact Or.inl h1
        · exact Or.inr ⟨List.mem_cons_of_mem k0 hmem, hns, hke⟩
      · rw [if_neg hk] at h
        split at h
        · exact Except.noConfusion h
        · rename_i ksq heq
          rcases ih _ _ k ks q0s h hm with h1 | ⟨hmem, hns, hke⟩
          · rcases List.mem_append.mp h1 with h2 | h2
            · exact Or.inl h2
            · obtain ⟨hk1, hk2, hk3⟩ : k = k0 ∧ ks = ksq.1 ∧ q0s = ksq.2 := by
                simpa [Prod.ext_iff] using h2
              subst hk1; subst hk2; subst hk3
              refine Or.inr ⟨List.mem_cons_self _ _, by simpa using hk, ?_⟩
              rw [heq]
          · exact Or.inr ⟨List.mem_cons_of_mem k0 hmem, hns, hke⟩

theorem estKinds_complete (env : Env) (tr : Store) (skip : Bool) :
    ∀ (l : List String) (ff ff' : FFTable),
      estKinds env tr skip l ff = .ok ff' →
      ∀ k, k ∈ l → skippedKind skip k = false →
      ∃ ks q0s, (k, ks, q0s) ∈ ff'.entries := by
  intro l
  induction l with
  | nil => intro ff ff' h k hm; cases hm
  | cons k0 rest ih =>
      intro ff ff' h k hm hns
      rw [estKinds] at h
      by_cases hk : skippedKind skip k0 = true
      · rw [if_pos hk] at h
        rcases List.mem_cons.mp hm with heq | hm'
        · subst heq; rw [hns] at hk; cases hk
        · exact ih _ _ h k hm' hns
      · rw [if_neg hk] at h
        split at h
        · exact Except.noConfusion h
        · rename_i ksq heq
          rcases List.mem_cons.mp hm with heqk | hm'
          · subst heqk
            exact ⟨ksq.1, ksq.2, estKinds_mono env tr skip rest _ _ _ h
              (List.mem_append_right _ (by simp))⟩
          · exact ih _ _ h k hm' hns

theorem estKinds_fail (env : Env) (tr : Store) (skip : Bool) :
    ∀ (l : List String) (ff : FFTable) (k : String) (e : PyErr),
      k ∈ l → skippedKind skip k = false → kindEntry env tr k = .error e →
      ∃ e', estKinds env tr skip l ff = .error e' := by
  intro l
  induction l with
  | nil => intro ff k e hm; cases hm
  | cons k0 rest ih =>
      intro ff k e hm hns hke
      rw [estKinds]
      by_cases hk : skippedKind skip k0 = true
      · rw [if_pos hk]
        rcases List.mem_cons.mp hm with heq | hm'
        · subst heq; rw [hns] at hk; cases hk
        · exact ih _ k e hm' hns hke
      · rw [if_neg hk]
        rcases List.mem_cons.mp hm with heq | hm'
        · subst heq
          rw [hke]
          exact ⟨e, rfl⟩
        · cases hke0 : kindEntry env tr k0 with
          | error e0 => exact ⟨e0, rfl⟩
          | ok ksq => exact ih _ k e hm' hns hke

/-! ### Concrete environments for witnesses and counterexamples -/

/-- A concrete one-kind environment: one `bond` kind with one instance. -/
def envA : Env :=
  ⟨["bond"], fun _ => [⟨"b1", "kjmol", "angstrom"⟩], fun _ _ => 7,
   fun _ _ => .ok (2, 3), fun _ => false⟩

/-- A concrete environment whose potential-term set is empty. -/
def envEmpty : Env :=
  ⟨[], fun _ => [], fun _ _ => 0, fun _ _ => .ok (0, 0), fun _ => false⟩

/-! ### C1: cache hit returns the store without generating -/

/-- **C1** (amended: provided the model's potential-term set is nonempty).
For every run of `generate_trajectories` with a configured trajectory file
name, an existing file deserializing to `st` and a nonempty potential-term
set, the method returns `st`, leaves the file untouched, and performs no
generate call; hence a second run on the resulting state returns the
identical result with zero further perturbation-generator (and hence ab
initio) invocations. -/
theorem claim_C1 (env : Env) (st : Store) (skip : Bool) (c : Nat)
    (h : env.terms ≠ []) :
    generate_trajectories env true (some (.ok st)) skip c = (.ok st, some (.ok st), c) ∧
    (generate_trajectories env true
        ((generate_trajectories env true (some (.ok st)) skip c).2.1) skip
        ((generate_trajectories env true (some (.ok st)) skip c).2.2)).1 =
      (generate_trajectories env true (some (.ok st)) skip c).1 ∧
    (generate_trajectories env true
        ((generate_trajectories env true (some (.ok st)) skip c).2.1) skip
        ((generate_trajectories env true (some (.ok st)) skip c).2.2)).2.2 =
      c := by
  obtain ⟨m, hm⟩ := maxlength_ok h
  have h1 : generate_trajectories env true (some (.ok st)) skip c =
      (.ok st, some (.ok st), c) := by
    simp [generate_trajectories, hm]
  refine ⟨h1, ?_, ?_⟩ <;> simp [h1]

theorem claim_C1_witness :
    generate_trajectories envA true (some (.ok [("b1", 9)])) true 0 =
      (.ok [("b1", 9)], some (.ok [("b1", 9)]), 0) :=
  (claim_C1 envA [("b1", 9)] true 0 (by decide)).1

/-- **C1** as frozen is violated by the code: with an empty potential-term
set (and a configured, existing, deserializable store) line 83's
`max([len(icname) for icname in ...])` raises `ValueError` before the
cache is consulted, so the store is not returned. -/
theorem claim_C1_counterexample :
    (generate_trajectories envEmpty true (some (.ok [("b1", 7)])) true 0).1 =
      .error .valueError ∧
    (generate_trajectories envEmpty true (some (.ok [("b1", 7)])) true 0).1 ≠
      .ok [("b1", 7)] :=
  ⟨rfl, fun hc => Except.noConfusion
    ((rfl : (generate_trajectories envEmpty true (some (.ok [("b1", 7)])) true 0).1 =
        .error .valueError).symm.trans hc)⟩

/-! ### C6: a corrupt store fails fast, with no silent regeneration -/

/-- **C6** (amended: provided the model's potential-term set is nonempty).
If the configured trajectory file exists but cannot be deserialized,
`generate_trajectories` propagates the deserialization error, performs no
generate call and leaves the file untouched: it never silently falls back
to regeneration. -/
theorem claim_C6 (env : Env) (skip : Bool) (c : Nat) (h : env.terms ≠ []) :
    generate_trajectories env true (some (.error ())) skip c =
      (.error .unpicklingError, some (.error ()), c) := by
  obtain ⟨m, hm⟩ := maxlength_ok h
  simp [generate_trajectories, hm]

theorem claim_C6_witness :
    generate_trajectories envA true (some (.error ())) true 0 =
      (.error .unpicklingError, some (.error ()), 0) :=
  claim_C6 envA true 0 (by decide)

/-- **C6** as frozen is violated by the code in one corner: with an empty
potential-term set the `ValueError` from line 83 preempts the load, so the
error surfaced is not the deserialization error (there is still no silent
regeneration). -/
theorem claim_C6_counterexample :
    (generate_trajectories envEmpty true (some (.error ())) true 0).1 =
      .error .valueError ∧
    (generate_trajectories envEmpty true (some (.error ())) true 0).1 ≠
      .error .unpicklingError :=
  ⟨rfl, fun hc => by
    have h2 := ((rfl : (generate_trajectories envEmpty true (some (.error ())) true 0).1 =
        .error .valueError).symm.trans hc)
    injection h2 with h3
    exact PyErr.noConfusion h3⟩

/-! ### C9: a cache hit never writes the file back and ignores skip_dihedrals -/

/-- **C9** (amended: the "returns the store's contents" part holds provided
the potential-term set is nonempty).  When the configured trajectory file
exists, `generate_trajectories` leaves the file exactly as it was (the
write branch runs only on the generate-from-scratch path), performs no
generate call, produces a result independent of `skip_dihedrals`, and, for
a nonempty term set and a deserializable store, returns exactly the
deserialized mapping — dihedral entries included. -/
theorem claim_C9 (env : Env) (content : Except Unit Store)
    (skip skip2 : Bool) (c : Nat) :
    (generate_trajectories env true (some content) skip c).2.1 = some content ∧
    (generate_trajectories env true (some content) skip c).2.2 = c ∧
    generate_trajectories env true (some content) skip c =
      generate_trajectories env true (some content) skip2 c ∧
    (env.terms ≠ [] → ∀ st, content = .ok st →
      (generate_trajectories env true (some content) skip c).1 = .ok st) := by
  cases hm : maxlength env.terms with
  | error e =>
      refine ⟨by simp [generate_trajectories, hm], by simp [generate_trajectories, hm],
        by simp [generate_trajectories, hm], ?_⟩
      intro hne st hc
      obtain ⟨m, hm2⟩ := maxlength_ok hne
      rw [hm] at hm2
      exact Except.noConfusion hm2
  | ok m =>
      cases content with
      | error u =>
          refine ⟨by simp [generate_trajectories, hm], by simp [generate_trajectories, hm],
            by simp [generate_trajectories, hm], ?_⟩
          intro _ st hc
          exact Except.noConfusion hc
      | ok st0 =>
          refine ⟨by simp [generate_trajectories, hm], by simp [generate_trajectories, hm],
            by simp [generate_trajectories, hm], ?_⟩
          intro _ st hc
          injection hc with h2
          subst h2
          simp [generate_trajectories, hm]

theorem claim_C9_witness :
    (generate_trajectories envA true
        (some (.ok [("b1", 9), ("dihed1", 4)])) true 0).1 =
      .ok [("b1", 9), ("dihed1", 4)] :=
  (claim_C9 envA (.ok [("b1", 9), ("dihed1", 4)]) true false 0).2.2.2
    (by decide) _ rfl

/-- **C9** as frozen is violated by the code: with an empty potential-term
set the call raises `ValueError` instead of returning the store's contents
(the file is still not written back). -/
theorem claim_C9_counterexample :
    (generate_trajectories envEmpty true (some (.ok [("x1", 3)])) true 0).1 =
      .error .valueError ∧
    (generate_trajectories envEmpty true (some (.ok [("x1", 3)])) true 0).1 ≠
      .ok [("x1", 3)] :=
  ⟨rfl, fun hc => Except.noConfusion
    ((rfl : (generate_trajectories envEmpty true (some (.ok [("x1", 3)])) true 0).1 =
        .error .valueError).symm.trans hc)⟩

/-! ### Helpers relating the methods to their loops -/

theorem estimate_ok_estKinds (env : Env) (tr : Store) (skip : Bool) (ff : FFTable)
    (h : estimate_from_pt env tr skip = .ok ff) :
    estKinds env tr skip (sortStrings env.terms) ⟨[]⟩ = .ok ff := by
  rw [estimate_from_pt] at h
  cases hm : maxlength env.terms with
  | error e => rw [hm] at h; exact Except.noConfusion h
  | ok m => rw [hm] at h; exact h

/-- A failing kind (any raised exception while processing one non-skipped
kind) aborts the whole of `estimate_from_pt`: the error propagates, no
table is returned and `update_fftable` is never called. -/
theorem estimate_fail_of_kindEntry_error (env : Env) (tr : Store) (skip : Bool)
    (k : String) (e : PyErr) (hk : k ∈ env.terms)
    (hns : skippedKind skip k = false) (hke : kindEntry env tr k = .error e) :
    (∃ e', estimate_from_pt env tr skip = .error e') ∧
    est_update env tr skip = none := by
  have hmem : k ∈ sortStrings env.terms := (mem_sortStrings k env.terms).mpr hk
  obtain ⟨e', he'⟩ :=
    estKinds_fail env tr skip (sortStrings env.terms) ⟨[]⟩ k e hmem hns hke
  have hne : env.terms ≠ [] := by
    intro hempty
    rw [hempty] at hk
    exact absurd hk (List.not_mem_nil k)
  obtain ⟨m, hm⟩ := maxlength_ok hne
  have hest : estimate_from_pt env tr skip = .error e' := by
    rw [estimate_from_pt, hm]
    exact he'
  refine ⟨⟨e', hest⟩, ?_⟩
  rw [est_update, hest]

/-- A normal return of `generate_trajectories` on a cache miss comes from
the generate-from-scratch loop. -/
theorem gen_traj_ok_scratch (env : Env) (fns : Bool)
    (disk : Option (Except Unit Store)) (skip : Bool) (c0 : Nat) (st : Store)
    (hmiss : fns = false ∨ disk = none)
    (hok : (generate_trajectories env fns disk skip c0).1 = .ok st) :
    ∃ c', genKinds env skip (sortStrings env.terms) [] c0 = (.ok st, c') := by
  cases hm : maxlength env.terms with
  | error e => simp [generate_trajectories, hm] at hok
  | ok m =>
      rcases hg : genKinds env skip (sortStrings env.terms) [] c0 with ⟨r, c'⟩
      cases r with
      | error e =>
          rcases hmiss with hf | hd
          · subst hf
            simp [generate_trajectories, hm, hg] at hok
          · subst hd
            cases fns <;> simp [generate_trajectories, hm, hg] at hok
      | ok st2 =>
          have hst : st2 = st := by
            rcases hmiss with hf | hd
            · subst hf
              simpa [generate_trajectories, hm, hg] using hok
            · subst hd
              cases fns <;> simpa [generate_trajectories, hm, hg] using hok
          subst hst
          exact ⟨c', hg ▸ rfl⟩

/-! ### C2: Force-Field Table entries are parallel per-instance arrays -/

/-- **C2**.  For every kind entry the successful `estimate_from_pt` adds,
the force-constant and equilibrium arrays have equal length, that length
is the number of IC instances of the kind in the catalog, and the `i`-th
elements of both arrays are the two components of the estimate computed
from the `i`-th instance and its stored trajectory. -/
theorem claim_C2 (env : Env) (tr : Store) (skip : Bool) (ff : FFTable)
    (k : String) (ks q0s : DataArray)
    (hok : estimate_from_pt env tr skip = .ok ff)
    (hmem : (k, ks, q0s) ∈ ff.entries) :
    ks.data.length = q0s.data.length ∧
    ks.data.length = (env.ics k).length ∧
    ∃ kqs : List (Val × Val),
      ks.data = kqs.map Prod.fst ∧ q0s.data = kqs.map Prod.snd ∧
      ∀ (i : Nat) (hi : i < kqs.length) (hl : i < (env.ics k).length),
        ∃ t, findTraj tr ((env.ics k).get ⟨i, hl⟩).name = some t ∧
          env.est ((env.ics k).get ⟨i, hl⟩) t = .ok (kqs.get ⟨i, hi⟩) := by
  have hkk := estimate_ok_estKinds env tr skip ff hok
  rcases estKinds_ok_src env tr skip _ _ _ k ks q0s hkk hmem with h1 | ⟨_, _, hke⟩
  · exact absurd h1 (List.not_mem_nil _)
  · obtain ⟨kqs, hest, hks, hqs, hlen⟩ := kindEntry_ok env tr k ks q0s hke
    refine ⟨?_, ?_, kqs, hks, hqs, ?_⟩
    · rw [hks, hqs]
      simp
    · rw [hks]
      simp [hlen]
    · intro i hi hl
      exact estICs_ok_get env.est tr (env.ics k) kqs hest i hi hl

theorem claim_C2_witness :
    (⟨"kjmol", [2]⟩ : DataArray).data.length =
      (⟨"angstrom", [3]⟩ : DataArray).data.length ∧
    (⟨"kjmol", [2]⟩ : DataArray).data.length = (envA.ics "bond").length ∧
    ∃ kqs : List (Val × Val),
      (⟨"kjmol", [2]⟩ : DataArray).data = kqs.map Prod.fst ∧
      (⟨"angstrom", [3]⟩ : DataArray).data = kqs.map Prod.snd ∧
      ∀ (i : Nat) (hi : i < kqs.length) (hl : i < (envA.ics "bond").length),
        ∃ t, findTraj [("b1", 5)] ((envA.ics "bond").get ⟨i, hl⟩).name = some t ∧
          envA.est ((envA.ics "bond").get ⟨i, hl⟩) t = .ok (kqs.get ⟨i, hi⟩) :=
  claim_C2 envA [("b1", 5)] true ⟨[("bond", ⟨"kjmol", [2]⟩, ⟨"angstrom", [3]⟩)]⟩
    "bond" ⟨"kjmol", [2]⟩ ⟨"angstrom", [3]⟩ rfl (List.mem_singleton.mpr rfl)

/-! ### C5: a stage-1 failure for one kind aborts the whole estimation -/

/-- A two-kind environment where the `angle` kind's instance has no stored
trajectory (its estimation raises `KeyError`) while `bond` could be
estimated. -/
def envC5 : Env :=
  ⟨["angle", "bond"],
   fun k => if k = "angle" then [⟨"a1", "kjrad", "rad"⟩]
            else [⟨"b1", "kjmol", "angstrom"⟩],
   fun _ _ => 7, fun _ _ => .ok (2, 3), fun _ => false⟩

/-- **C5** (amended).  A failure while estimating the parameters of one
non-skipped IC kind aborts `estimate_from_pt` entirely: the exception
propagates to the caller, no Force-Field Table is returned, no other kind
receives an entry, and the model is not updated. -/
theorem claim_C5 (env : Env) (tr : Store) (skip : Bool) (k : String) (e : PyErr)
    (hk : k ∈ env.terms) (hns : skippedKind skip k = false)
    (hke : kindEntry env tr k = .error e) :
    (∃ e', estimate_from_pt env tr skip = .error e') ∧
    est_update env tr skip = none :=
  estimate_fail_of_kindEntry_error env tr skip k e hk hns hke

theorem claim_C5_witness :
    (∃ e', estimate_from_pt envC5 [("b1", 5)] true = .error e') ∧
    est_update envC5 [("b1", 5)] true = none :=
  claim_C5 envC5 [("b1", 5)] true "angle" .keyError (by decide) rfl rfl

/-- **C5** as frozen is violated by the code: when `angle` fails (missing
trajectory), `estimate_from_pt` raises `KeyError` and returns no table —
the other kind `bond` does not receive a Force-Field Table entry, and the
model is not updated. -/
theorem claim_C5_counterexample :
    estimate_from_pt envC5 [("b1", 5)] true = .error .keyError ∧
    est_update envC5 [("b1", 5)] true = none :=
  ⟨rfl, rfl⟩

/-! ### C10: a non-skipped kind with no instances raises an IndexError -/

/-- A one-kind environment whose kind has an empty instance list. -/
def envC10 : Env :=
  ⟨["bond"], fun _ => [], fun _ _ => 0, fun _ _ => .ok (0, 0), fun _ => false⟩

/-- **C10**.  `estimate_from_pt` reads the unit tags from `ics[0]`, so for
a non-skipped kind with an empty instance list the per-kind processing
raises `IndexError`, the whole call fails, and no (empty) entry is ever
added to a returned Force-Field Table — the model is not updated. -/
theorem claim_C10 (env : Env) (tr : Store) (skip : Bool) (k : String)
    (hk : k ∈ env.terms) (hns : skippedKind skip k = false)
    (he : env.ics k = []) :
    kindEntry env tr k = .error .indexError ∧
    (∃ e', estimate_from_pt env tr skip = .error e') ∧
    est_update env tr skip = none := by
  have hke : kindEntry env tr k = .error .indexError := by
    rw [kindEntry, he]
  obtain ⟨h1, h2⟩ :=
    estimate_fail_of_kindEntry_error env tr skip k .indexError hk hns hke
  exact ⟨hke, h1, h2⟩

theorem claim_C10_witness :
    kindEntry envC10 [] "bond" = .error .indexError ∧
    (∃ e', estimate_from_pt envC10 [] true = .error e') ∧
    est_update envC10 [] true = none :=
  claim_C10 envC10 [] true "bond" (by decide) rfl rfl

/-! ### C8: skip_dihedrals=True excludes exactly the dihedral kinds -/

/-- A two-kind environment with a dihedral kind. -/
def env8 : Env :=
  ⟨["bond", "dihed/a"],
   fun k => if k = "bond" then [⟨"b1", "kjmol", "angstrom"⟩]
            else [⟨"d1", "kjrad", "rad"⟩],
   fun _ _ => 7, fun _ _ => .ok (2, 3), fun _ => false⟩

/-- **C8**.  With `skip_dihedrals=True`, on the generate-from-scratch path
the produced trajectory dictionary has keys coming exactly from the
instances of the non-dihedral kinds of the potential-term set, and a
successful `estimate_from_pt` produces a Force-Field Table whose entries
are exactly the non-dihedral kinds of the potential-term set. -/
theorem claim_C8 (env : Env) (tr : Store) (fns : Bool)
    (disk : Option (Except Unit Store)) (c0 : Nat) (st : Store) (ff : FFTable) :
    ((fns = false ∨ disk = none) →
      (generate_trajectories env fns disk true c0).1 = .ok st →
      ((∀ n, (findTraj st n).isSome = true →
          ∃ k, k ∈ env.terms ∧ startswith k "dihed" = false ∧
            ∃ ic, ic ∈ env.ics k ∧ ic.name = n) ∧
       (∀ k, k ∈ env.terms → startswith k "dihed" = false →
          ∀ ic, ic ∈ env.ics k → (findTraj st ic.name).isSome = true))) ∧
    (estimate_from_pt env tr true = .ok ff →
      ((∀ k ks q0s, (k, ks, q0s) ∈ ff.entries →
          k ∈ env.terms ∧ startswith k "dihed" = false) ∧
       (∀ k, k ∈ env.terms → startswith k "dihed" = false →
          ∃ ks q0s, (k, ks, q0s) ∈ ff.entries))) := by
  constructor
  · intro hmiss hok
    obtain ⟨c', hg⟩ := gen_traj_ok_scratch env fns disk true c0 st hmiss hok
    constructor
    · intro n hn
      rcases genKinds_ok_subset env true _ _ _ _ _ n hg hn with h1 | ⟨k, hkm, hns, ic, hicm, hicn⟩
      · simp [findTraj] at h1
      · refine ⟨k, (mem_sortStrings k env.terms).mp hkm, ?_, ic, hicm, hicn⟩
        simpa [skippedKind] using hns
    · intro k hkm hsw ic hic
      refine genKinds_ok_complete env true _ _ _ _ _ hg k
        ((mem_sortStrings k env.terms).mpr hkm) ?_ ic hic
      simp [skippedKind, hsw]
  · intro hok
    have hkk := estimate_ok_estKinds env tr true ff hok
    constructor
    · intro k ks q0s hmem
      rcases estKinds_ok_src env tr true _ _ _ k ks q0s hkk hmem with h1 | ⟨hkm, hns, _⟩
      · exact absurd h1 (List.not_mem_nil _)
      · refine ⟨(mem_sortStrings k env.terms).mp hkm, ?_⟩
        simpa [skippedKind] using hns
    · intro k hkm hsw
      refine estKinds_complete env tr true _ _ _ hkk k
        ((mem_sortStrings k env.terms).mpr hkm) ?_
      simp [skippedKind, hsw]

theorem claim_C8_witness :
    (findTraj [("b1", 7)] "b1").isSome = true ∧
    (∃ ks q0s, ("bond", ks, q0s) ∈
      (⟨[("bond", ⟨"kjmol", [2]⟩, ⟨"angstrom", [3]⟩)]⟩ : FFTable).entries) :=
  ⟨((claim_C8 env8 [("b1", 5)] false none 0 [("b1", 7)]
      ⟨[("bond", ⟨"kjmol", [2]⟩, ⟨"angstrom", [3]⟩)]⟩).1 (Or.inl rfl) rfl).2
      "bond" (by decide) rfl ⟨"b1", "kjmol", "angstrom"⟩ (by decide),
   ((claim_C8 env8 [("b1", 5)] false none 0 [("b1", 7)]
      ⟨[("bond", ⟨"kjmol", [2]⟩, ⟨"angstrom", [3]⟩)]⟩).2 rfl).2 "bond" (by decide) rfl⟩

/-! ### C4: plot_pt merges the cache per IC -/

/-- **C4**.  `plot_pt` merges the cache per IC: with a configured file
deserializing to `st0`, entries already present are kept exactly as they
are, a trajectory is generated (with `steps=51`) exactly for the requested
instances whose names are missing (one generate call each), nothing else
is added, and the merged dictionary is persisted. -/
theorem claim_C4 (env : Env) (icname : String) (st0 : Store) (c0 : Nat)
    (hnd : ((env.ics icname).map IC.name).Nodup)
    (hni : ∀ c, env.intr c = false) :
    ∃ st, plot_pt env true (some (.ok st0)) icname c0 =
        (.ok st, some (.ok st),
          c0 + ((env.ics icname).filter
            (fun ic => (findTraj st0 ic.name).isNone)).length) ∧
      (∀ ic, ic ∈ env.ics icname →
        findTraj st ic.name =
          some ((findTraj st0 ic.name).getD (env.gen ic (some 51)))) ∧
      (∀ n t, findTraj st0 n = some t → findTraj st n = some t) ∧
      (∀ n, (∀ ic, ic ∈ env.ics icname → ic.name ≠ n) →
        findTraj st n = findTraj st0 n) := by
  obtain ⟨P0, P1, P2⟩ := plotLoop_merge env.gen env.intr hni (env.ics icname) st0 c0 hnd
  refine ⟨(plotLoop env.gen env.intr (env.ics icname) st0 c0).1, ?_, P2, ?_, P1⟩
  · have hred : plot_pt env true (some (.ok st0)) icname c0 =
        (.ok (plotLoop env.gen env.intr (env.ics icname) st0 c0).1,
         some (.ok (plotLoop env.gen env.intr (env.ics icname) st0 c0).1),
         (plotLoop env.gen env.intr (env.ics icname) st0 c0).2) := rfl
    rw [hred, P0]
  · intro n t h
    by_cases hn : ∃ ic, ic ∈ env.ics icname ∧ ic.name = n
    · obtain ⟨ic, hm, hname⟩ := hn
      subst hname
      rw [P2 ic hm, h]
      rfl
    · rw [P1 n (fun ic hm heq => hn ⟨ic, hm, heq⟩)]
      exact h

/-- A one-kind environment with three instances, used to exercise the
cache merge. -/
def env4 : Env :=
  ⟨["bond"],
   fun _ => [⟨"a1", "kjmol", "angstrom"⟩, ⟨"b1", "kjmol", "angstrom"⟩,
             ⟨"c1", "kjmol", "angstrom"⟩],
   fun _ _ => 7, fun _ _ => .ok (2, 3), fun _ => false⟩

theorem claim_C4_witness :
    ∃ st, plot_pt env4 true (some (.ok [("a1", 1), ("b1", 2)])) "bond" 0 =
        (.ok st, some (.ok st), 0 + 1) ∧
      findTraj st "c1" = some 7 ∧ findTraj st "a1" = some 1 := by
  obtain ⟨st, h1, h2, h3, h4⟩ :=
    claim_C4 env4 "bond" [("a1", 1), ("b1", 2)] 0 (by decide) (fun c => rfl)
  exact ⟨st, h1, h2 ⟨"c1", "kjmol", "angstrom"⟩ (by decide), h3 "a1" 1 rfl⟩

/-! ### C3: interruption safety -/

/-- **C3** (amended).  When a `KeyboardInterrupt` occurs at the `N`-th
generate attempt of the diagnostic path `plot_pt` (cache configured, file
absent), every other requested instance gets its generated trajectory, the
resulting dictionary is persisted before returning, and the interrupted IC
has no entry at all (instances after the interrupted one are still
attempted, because the handler continues the loop).  In the stage-1 bulk
path `generate_trajectories`, by contrast, an interrupt raised inside the
generation loop propagates to the caller and the cache file is never
written: the completed trajectories are lost. -/
theorem claim_C3 (env : Env) (icname : String) (N : Nat)
    (hintr : ∀ c, env.intr c = decide (c = N))
    (hN : N < (env.ics icname).length)
    (hnd : ((env.ics icname).map IC.name).Nodup) :
    (∃ st c2, plot_pt env true none icname 0 = (.ok st, some (.ok st), c2) ∧
      (∀ (i : Nat) (h : i < (env.ics icname).length), i ≠ N →
        findTraj st ((env.ics icname).get ⟨i, h⟩).name =
          some (env.gen ((env.ics icname).get ⟨i, h⟩) (some 51))) ∧
      findTraj st ((env.ics icname).get ⟨N, hN⟩).name = none) ∧
    (∀ (env2 : Env) (skip : Bool) (c0 c2 : Nat),
      env2.terms ≠ [] →
      genKinds env2 skip (sortStrings env2.terms) [] c0 =
        (.error .keyboardInterrupt, c2) →
      generate_trajectories env2 true none skip c0 =
        (.error .keyboardInterrupt, none, c2)) := by
  constructor
  · obtain ⟨P1, P2⟩ := plotLoop_fresh env.gen env.intr (env.ics icname) [] 0
      (fun ic _ => rfl) hnd
    refine ⟨(plotLoop env.gen env.intr (env.ics icname) [] 0).1,
      (plotLoop env.gen env.intr (env.ics icname) [] 0).2, rfl, ?_, ?_⟩
    · intro i h hi
      have hcond : env.intr (0 + i) = false := by
        rw [hintr, Nat.zero_add]
        simp [hi]
      have h2 := P2 i h
      rw [hcond] at h2
      simpa using h2
    · have hcond : env.intr (0 + N) = true := by
        rw [hintr, Nat.zero_add]
        simp
      have h2 := P2 N hN
      rw [hcond] at h2
      simpa using h2
  · intro env2 skip c0 c2 hne hgk
    obtain ⟨m, hm⟩ := maxlength_ok hne
    simp [generate_trajectories, hm, hgk]

/-- A one-kind environment with three instances whose second generate call
(call index 1) raises `KeyboardInterrupt`. -/
def env3 : Env :=
  ⟨["bond"],
   fun _ => [⟨"a1", "kjmol", "angstrom"⟩, ⟨"b1", "kjmol", "angstrom"⟩,
             ⟨"c1", "kjmol", "angstrom"⟩],
   fun _ _ => 7, fun _ _ => .ok (2, 3), fun c => decide (c = 1)⟩

theorem claim_C3_witness :
    ∃ st c2, plot_pt env3 true none "bond" 0 = (.ok st, some (.ok st), c2) ∧
      (∀ (i : Nat) (h : i < (env3.ics "bond").length), i ≠ 1 →
        findTraj st ((env3.ics "bond").get ⟨i, h⟩).name =
          some (env3.gen ((env3.ics "bond").get ⟨i, h⟩) (some 51))) ∧
      findTraj st ((env3.ics "bond").get ⟨1, by decide⟩).name = none :=
  (claim_C3 env3 "bond" 1 (fun c => rfl) (by decide) (by decide)).1

/-- A one-kind environment with two instances whose second generate call
(call index 1) raises `KeyboardInterrupt`. -/
def env3c : Env :=
  ⟨["bond"], fun _ => [⟨"a1", "kjmol", "angstrom"⟩, ⟨"b1", "kjmol", "angstrom"⟩],
   fun _ _ => 7, fun _ _ => .ok (2, 3), fun c => decide (c = 1)⟩

/-- **C3** as frozen is violated by the code on the stage-1 bulk path:
with a cache path configured and no file present, a cancellation during
the second instance's generation (one trajectory already completed) makes
`generate_trajectories` propagate `KeyboardInterrupt` with the cache file
still absent — the completed trajectory is not persisted, where the claim
requires it to be. -/
theorem claim_C3_counterexample :
    generate_trajectories env3c true none true 0 =
      (.error .keyboardInterrupt, none, 2) := rfl

/-! ### C7: the refiner writes back only force constants -/

/-- **C7** (spec-modelled: `cost.estimate`, `update_fcs` and `get_fftable`
live in collaborator modules outside the orchestration file).
`refine_cost` performs a bulk force-constant update: the returned table is
the Model's table; it has one entry per existing kind; for every kind
entry, every force constant is replaced by the single refined constant of
that kind (unit tag and array length preserved), and the equilibrium
array is exactly the one from stage 1 — equilibrium values are untouched
in both the Model and the table. -/
theorem claim_C7 (v : ValState) (fcs : String → Val) :
    (refine_cost fcs v).2.fftab = (refine_cost fcs v).1 ∧
    (refine_cost fcs v).1.entries.length = v.fftab.entries.length ∧
    (∀ k ks q0s, (k, ks, q0s) ∈ v.fftab.entries →
      ∃ ks2, (k, ks2, q0s) ∈ (refine_cost fcs v).1.entries ∧
        ks2.unit = ks.unit ∧ ks2.data.length = ks.data.length ∧
        ∀ x, x ∈ ks2.data → x = fcs k) ∧
    (∀ k ks2 q0s, (k, ks2, q0s) ∈ (refine_cost fcs v).1.entries →
      ∃ ks, (k, ks, q0s) ∈ v.fftab.entries ∧
        ks2.unit = ks.unit ∧ ks2.data.length = ks.data.length ∧
        ∀ x, x ∈ ks2.data → x = fcs k) := by
  refine ⟨rfl, ?_, ?_, ?_⟩
  · simp [refine_cost, update_fcs, get_fftable]
  · intro k ks q0s hm
    refine ⟨⟨ks.unit, ks.data.map (fun _ => fcs k)⟩, ?_, rfl, by simp, ?_⟩
    · exact List.mem_map_of_mem
        (fun t : String × DataArray × DataArray =>
          (t.1, (⟨t.2.1.unit, t.2.1.data.map (fun _ => fcs t.1)⟩ : DataArray), t.2.2))
        hm
    · intro x hx
      obtain ⟨y, hy, hxy⟩ := List.mem_map.mp hx
      exact hxy.symm
  · intro k ks2 q0s hm
    obtain ⟨t, ht, hft⟩ := List.mem_map.mp hm
    obtain ⟨h1, h2, h3⟩ :
        t.1 = k ∧
        (⟨t.2.1.unit, t.2.1.data.map (fun _ => fcs t.1)⟩ : DataArray) = ks2 ∧
        t.2.2 = q0s := by
      simpa [Prod.ext_iff] using hft
    refine ⟨t.2.1, ?_, ?_, ?_, ?_⟩
    · have ht2 : (t.1, t.2.1, t.2.2) ∈ v.fftab.entries := ht
      rw [h1, h3] at ht2
      exact ht2
    · rw [← h2]
    · rw [← h2]
      simp
    · intro x hx
      rw [← h2] at hx
      obtain ⟨y, hy, hxy⟩ := List.mem_map.mp hx
      rw [← hxy, h1]

theorem claim_C7_witness :
    ∃ ks2, ("bond", ks2, (⟨"angstrom", [3, 4]⟩ : DataArray)) ∈
        (refine_cost (fun _ => 9)
          ⟨⟨[("bond", ⟨"kjmol", [2, 5]⟩, ⟨"angstrom", [3, 4]⟩)]⟩⟩).1.entries ∧
      ks2.unit = "kjmol" ∧ ks2.data.length = 2 ∧ ∀ x, x ∈ ks2.data → x = 9 :=
  (claim_C7 ⟨⟨[("bond", ⟨"kjmol", [2, 5]⟩, ⟨"angstrom", [3, 4]⟩)]⟩⟩
    (fun _ => 9)).2.2.1 "bond" ⟨"kjmol", [2, 5]⟩ ⟨"angstrom", [3, 4]⟩
    (List.mem_singleton.mpr rfl)

end QuickFF
